import Mathlib

/-!
Shallow embedding of `src/scraper.py` (class `ResourceScraper`) of the
web-resource-scraper repository, together with proofs about the claims of
its specification.

Python strings are modelled as `List Char`; `None`-able strings as
`Option (List Char)`.  The external collaborators (HTTP transport, parsed
markup, filesystem) are modelled explicitly: the parsed page is a record of
the element/attribute data the scraper reads, the transport is an oracle
returning either bytes or a `requests.RequestException`-style failure, and
the filesystem is an association list from paths to file contents.
-/

abbrev PyStr := List Char

/-- Whitespace characters, modelling Python's `str.strip()` and the regex
class `\s` on the ASCII range. -/
def isSpaceChar (c : Char) : Bool :=
  c == ' ' || c == '\t' || c == '\n' || c == '\r' || c == '\x0b' || c == '\x0c'

/-- The characters replaced by `_` in `clean_filename`: the regex class
`[<>:"/\\|?*\x00-\x1f]` (src/scraper.py line 43). -/
def invChar (c : Char) : Bool :=
  c == '<' || c == '>' || c == ':' || c == Char.ofNat 34 || c == '/' ||
  c == '\\' || c == '|' || c == '?' || c == '*' || decide (c.toNat ≤ 31)

/-- Characters stripped from both ends by `text.strip("_.")`. -/
def udChar (c : Char) : Bool := c == '_' || c == '.'

/-- Characters collapsed by the regex `[\s_]+` (src/scraper.py line 47). -/
def collChar (c : Char) : Bool := isSpaceChar c || c == '_'

/-- Remove the longest suffix of characters satisfying `p`
(Python's `str.rstrip`). -/
def dropTrailing (p : Char → Bool) : PyStr → PyStr
  | [] => []
  | a :: t =>
    match dropTrailing p t with
    | [] => if p a then [] else [a]
    | b :: r => a :: b :: r

/-- Python's `str.strip()` (no arguments): drop whitespace at both ends. -/
def pstrip (l : PyStr) : PyStr := dropTrailing isSpaceChar (l.dropWhile isSpaceChar)

/-- Scanner for `re.sub(r"<[^>]+>", "", text)`.  The first component is
`none` outside a potential tag and `some buf` after an unmatched `<`, where
`buf` holds (reversed) the characters seen since that `<`.  A `<...>` chunk
with at least one character between the brackets is deleted; an immediately
closed `<>` and an unterminated `<` tail are kept verbatim, as the regex
never matches them. -/
def stripTagsAux : Option PyStr → PyStr → PyStr
  | none, [] => []
  | some buf, [] => '<' :: buf.reverse
  | none, c :: rest =>
    if c == '<' then stripTagsAux (some []) rest else c :: stripTagsAux none rest
  | some buf, c :: rest =>
    if c == '>' then
      if buf.isEmpty then '<' :: '>' :: stripTagsAux none rest
      else stripTagsAux none rest
    else stripTagsAux (some (c :: buf)) rest

/-- Removal of HTML-tag-like chunks, `re.sub(r"<[^>]+>", "", text)`. -/
def stripTags (l : PyStr) : PyStr := stripTagsAux none l

/-- Character-wise step of `re.sub(invalid_chars, "_", text)`. -/
def replInv (c : Char) : Char := if invChar c then '_' else c

/-- Scanner for `re.sub(r"[\s_]+", "_", text)`: each maximal run of
whitespace/underscore characters becomes a single `_`.  The flag records
whether the scanner is currently inside such a run. -/
def collapseAux : Bool → PyStr → PyStr
  | _, [] => []
  | inRun, c :: rest =>
    if collChar c then
      if inRun then collapseAux true rest else '_' :: collapseAux true rest
    else c :: collapseAux false rest

/-- Collapse runs of whitespace/underscores, `re.sub(r"[\s_]+", "_", text)`. -/
def collapseRuns (l : PyStr) : PyStr := collapseAux false l

/-- Python's `text.strip("_.")`: drop `_` and `.` at both ends. -/
def stripUD (l : PyStr) : PyStr := dropTrailing udChar (l.dropWhile udChar)

/-- No two adjacent collapsible (whitespace/underscore) characters: the
shape `re.sub(r"[\s_]+", "_", ·)` leaves behind. -/
def noDD : PyStr → Bool
  | a :: b :: t => !(collChar a && collChar b) && noDD (b :: t)
  | _ => true

/-- The transformation chain of `clean_filename` after its emptiness guard:
tag removal, strip, invalid-character replacement, run collapsing,
`strip("_.")`, truncation with `rstrip("_.")`. -/
def clean_filename_core (t0 : PyStr) (max_length : Nat) : PyStr :=
  let t5 := stripUD (collapseRuns ((pstrip (stripTags t0)).map replInv))
  if max_length < t5.length then dropTrailing udChar (t5.take max_length) else t5

/-- `ResourceScraper.clean_filename` (src/scraper.py lines 31-56).
Returns `none` where the Python code returns `None`. -/
def clean_filename (text : Option PyStr) (max_length : Nat) : Option PyStr :=
  match text with
  | none => none
  | some t0 =>
    if t0.isEmpty || (pstrip t0).isEmpty then none
    else if (clean_filename_core t0 max_length).isEmpty then none
    else some (clean_filename_core t0 max_length)

/-! ### String search helpers (Python `startswith`, `endswith`, `in`) -/

/-- Boolean test that the first list is an initial segment of the second. -/
def startsWithL : PyStr → PyStr → Bool
  | [], _ => true
  | _ :: _, [] => false
  | a :: p, b :: l => a == b && startsWithL p l

/-- Python's `str.endswith`. -/
def endsWithL (suf l : PyStr) : Bool := startsWithL suf.reverse l.reverse

/-- Python's substring test `pat in l`. -/
def containsSub (pat : PyStr) : PyStr → Bool
  | [] => startsWithL pat []
  | c :: t => startsWithL pat (c :: t) || containsSub pat t

/-- Python's `str.lower()` (ASCII case folding suffices for the URLs here). -/
def lowerStr (l : PyStr) : PyStr := l.map Char.toLower

/-- The suffix that remains after the first occurrence of `pat`,
or `none` when `pat` does not occur. -/
def afterFirstSub (pat : PyStr) : PyStr → Option PyStr
  | [] => if startsWithL pat [] then some [] else none
  | c :: t =>
    if startsWithL pat (c :: t) then some ((c :: t).drop pat.length)
    else afterFirstSub pat t

/-! ### String constants used by the scraper -/

def sDotPdf : PyStr := ".pdf".data
def sDotPpt : PyStr := ".ppt".data
def sDotPptx : PyStr := ".pptx".data
def sDotDoc : PyStr := ".doc".data
def sDotDocx : PyStr := ".docx".data
def sDotXls : PyStr := ".xls".data
def sDotMp4 : PyStr := ".mp4".data
def kwPdf : PyStr := "pdf".data
def kwPpt : PyStr := "ppt".data
def kwDocx : PyStr := "docx".data
def kwXls : PyStr := "xls".data
def kwMp4 : PyStr := "mp4".data
def kwDoc : PyStr := "doc".data
def sDocument : PyStr := "document".data
def sSchemeSep : PyStr := "://".data
def sWww : PyStr := "www.".data
def sWebsite : PyStr := "website".data
def sEmbeddedRes : PyStr := "Embedded_Resource".data
def sEmbeddedSpace : PyStr := "Embedded resource".data

/-! ### Models of the Python standard-library path/URL helpers.
These are external collaborators of the scraper (`urllib.parse`,
`os.path`); they are modelled on the URL/path shapes the scraper
manipulates. -/

/-- True for characters before the query/fragment part of a URL. -/
def notPathEnd (c : Char) : Bool := !(c == '?') && !(c == '#')

/-- Models `urllib.parse.urlparse(url).path`: for a URL of the form
`scheme://netloc/path?query#fragment` the `/path` part; for a URL without
`://` the part before any `?`/`#`. -/
def urlPath (url : PyStr) : PyStr :=
  match afterFirstSub sSchemeSep url with
  | some rest =>
    let p := rest.dropWhile (fun c => !(c == '/') && notPathEnd c)
    match p with
    | '/' :: _ => p.takeWhile notPathEnd
    | _ => []
  | none => url.takeWhile notPathEnd

/-- Models `urllib.parse.urlparse(url).netloc`: the host part after `://`
(empty for URLs without `://`). -/
def urlNetloc (url : PyStr) : PyStr :=
  match afterFirstSub sSchemeSep url with
  | some rest => rest.takeWhile (fun c => !(c == '/') && notPathEnd c)
  | none => []

/-- Models POSIX `os.path.basename`: everything after the last `/`. -/
def basenameOf (p : PyStr) : PyStr := (p.reverse.takeWhile (fun c => !(c == '/'))).reverse

/-- Models POSIX `os.path.dirname`: everything up to the last `/`, with the
trailing slash(es) stripped unless the result is all slashes. -/
def dirnameOf (p : PyStr) : PyStr :=
  let head := (p.reverse.dropWhile (fun c => !(c == '/'))).reverse
  if !head.isEmpty && head.any (fun c => !(c == '/')) then
    dropTrailing (fun c => c == '/') head
  else head

/-- Case distinction of `splitext` on the reversed input split at the last
dot/slash: `pre` is the reversed extension candidate, the third argument the
remaining reversed prefix. -/
def splitextAux (p : PyStr) (pre : PyStr) : PyStr → PyStr × PyStr
  | '.' :: r2 =>
    if (r2.takeWhile (fun c => !(c == '/'))).any (fun c => !(c == '.')) then
      (r2.reverse, '.' :: pre.reverse)
    else (p, [])
  | _ => (p, [])

/-- Models POSIX `os.path.splitext`: split at the last dot of the final
path segment, unless that segment consists only of leading dots up to it. -/
def splitext (p : PyStr) : PyStr × PyStr :=
  splitextAux p (p.reverse.takeWhile (fun c => !(c == '.') && !(c == '/')))
    (p.reverse.dropWhile (fun c => !(c == '.') && !(c == '/')))

/-- Models two-argument POSIX `os.path.join`. -/
def joinPath (a b : PyStr) : PyStr :=
  if startsWithL ['/'] b then b
  else if a.isEmpty then b
  else if endsWithL ['/'] a then a ++ b
  else a ++ '/' :: b

/-- Models `urllib.parse.urljoin` on the reference shapes the scraper meets:
an empty base returns the url, an empty url returns the base, an absolute
url (containing `://`) wins, a root-relative url is appended to the base's
scheme+host, and a document-relative url replaces the base's last segment. -/
def urljoin (base url : PyStr) : PyStr :=
  if base.isEmpty then url
  else if url.isEmpty then base
  else if containsSub sSchemeSep url then url
  else if startsWithL ['/'] url then
    (match afterFirstSub sSchemeSep base with
     | some rest =>
       base.take (base.length - rest.length) ++
         rest.takeWhile (fun c => !(c == '/') && notPathEnd c)
     | none => []) ++ url
  else (base.reverse.dropWhile (fun c => !(c == '/'))).reverse ++ url

/-! ### TypeClassifier and FilenameSynthesizer -/

/-- `ResourceScraper.get_file_extension` (src/scraper.py lines 153-171). -/
def get_file_extension (url : PyStr) : PyStr :=
  let path := lowerStr (urlPath url)
  if endsWithL sDotPdf path then sDotPdf
  else if endsWithL sDotPpt path then sDotPpt
  else if endsWithL sDotPptx path then sDotPptx
  else if containsSub kwPdf (lowerStr url) then sDotPdf
  else if containsSub kwPpt (lowerStr url) then sDotPptx
  else sDotPdf

/-- Modelled from the spec (§4.2), for comparison with the code's
`get_file_extension`: suffix match of the URL's path against each of the
seven recognized extensions, then case-insensitive keyword match on the full
URL in the priority order pdf > ppt > docx > xls > mp4 > doc, else `.pdf`. -/
def classify_spec (url : PyStr) : PyStr :=
  let path := lowerStr (urlPath url)
  if endsWithL sDotPdf path then sDotPdf
  else if endsWithL sDotPptx path then sDotPptx
  else if endsWithL sDotPpt path then sDotPpt
  else if endsWithL sDotDocx path then sDotDocx
  else if endsWithL sDotDoc path then sDotDoc
  else if endsWithL sDotXls path then sDotXls
  else if endsWithL sDotMp4 path then sDotMp4
  else if containsSub kwPdf (lowerStr url) then sDotPdf
  else if containsSub kwPpt (lowerStr url) then sDotPptx
  else if containsSub kwDocx (lowerStr url) then sDotDocx
  else if containsSub kwXls (lowerStr url) then sDotXls
  else if containsSub kwMp4 (lowerStr url) then sDotMp4
  else if containsSub kwDoc (lowerStr url) then sDotDoc
  else sDotPdf

/-- Fallback part of `generate_filename`: the `elif fallback_name:` and
`else:` branches (src/scraper.py lines 182-196). -/
def gfFallback (original_url fallback_name extension : PyStr) : PyStr :=
  if !fallback_name.isEmpty then
    match clean_filename (some fallback_name) 100 with
    | some cf => cf ++ extension
    | none => sDocument ++ extension
  else
    let original_name := basenameOf (urlPath original_url)
    if !original_name.isEmpty && original_name.contains '.' then original_name
    else sDocument ++ extension

/-- `ResourceScraper.generate_filename` (src/scraper.py lines 173-198). -/
def generate_filename (link_text original_url fallback_name : PyStr) : PyStr :=
  let extension := get_file_extension original_url
  match clean_filename (some link_text) 100 with
  | some ct =>
    if 2 < ct.length then ct ++ extension
    else gfFallback original_url fallback_name extension
  | none => gfFallback original_url fallback_name extension

/-! ### Collision avoidance: the while-loop of download_file -/

/-- Little-endian decimal digits of `n`, with explicit fuel (the fuel `n`
itself always suffices). -/
def natToDigitsRev : Nat → Nat → PyStr
  | 0, _ => []
  | fuel + 1, n =>
    if n == 0 then [] else Char.ofNat (48 + n % 10) :: natToDigitsRev fuel (n / 10)

/-- Decimal rendering of a natural number, as Python's `str()`. -/
def natRepr (n : Nat) : PyStr :=
  if n == 0 then ['0'] else (natToDigitsRev n n).reverse

/-- The sequence of paths probed by the collision loop of `download_file`:
the original path first, then `f"{name}_{counter}{ext}"` for
`counter = 1, 2, ...` where `name, ext = os.path.splitext(original)`. -/
def cand (orig : PyStr) : Nat → PyStr
  | 0 => orig
  | j + 1 => (splitext orig).1 ++ '_' :: (natRepr (j + 1) ++ (splitext orig).2)

/-- The while-loop `while os.path.exists(filepath): ...` of download_file
(src/scraper.py lines 287-292), with fuel: returns the first candidate not
among `paths`, starting from candidate index `k`. -/
def findFree (paths : List PyStr) (orig : PyStr) : Nat → Nat → PyStr
  | 0, k => cand orig k
  | fuel + 1, k => if cand orig k ∈ paths then findFree paths orig fuel (k + 1) else cand orig k

/-- The filesystem: an association list from paths to file contents
(byte lists). -/
abbrev FileSys := List (PyStr × List Nat)

/-- Resolution of the destination path by download_file's collision loop:
`fs.length + 1` steps of fuel always reach a free path (proved below). -/
def nextFreePath (fs : FileSys) (orig : PyStr) : PyStr :=
  findFree (fs.map Prod.fst) orig (fs.length + 1) 0

/-! ### Parsed-page data model and ResourceExtractor -/

/-- An anchor element carrying an `href`, as consulted by `find_resources`:
`soup.find_all("a", href=True)`, `link.get_text(strip=True)`,
`link.get("title", "")`. -/
structure Anchor where
  href : PyStr
  text : PyStr
  title : PyStr
deriving DecidableEq

/-- An embed/object/iframe element: `embed.get("src")`, `embed.get("data")`,
`embed.get("title", "")`, `embed.get("alt", "")`. -/
structure Embed where
  src : Option PyStr
  data : Option PyStr
  title : PyStr
  alt : PyStr
deriving DecidableEq

/-- A parsed page, exposing exactly the element/attribute data the scraper
reads from BeautifulSoup. -/
structure Soup where
  anchors : List Anchor
  embeds : List Embed
  titleTag : Option PyStr
  h1 : Option PyStr
  metaTitle : Option PyStr
deriving DecidableEq

/-- The per-resource record built by `find_resources`, with the optional
`downloaded_path` set by `scrape_page` after a successful download. -/
structure Resource where
  url : PyStr
  filename : PyStr
  link_text : PyStr
  title : PyStr
  original_filename : PyStr
  downloaded_path : Option PyStr
deriving DecidableEq

/-- Python truthiness of an optional string: `None` and `""` are falsy. -/
def truthyS (o : Option PyStr) : Bool :=
  match o with
  | some s => !s.isEmpty
  | none => false

/-- `ResourceScraper.get_page_title` (src/scraper.py lines 81-105). -/
def get_page_title (soup : Soup) : Option PyStr :=
  let t1 := soup.titleTag.map pstrip
  if truthyS t1 then t1
  else
    let t2 := soup.h1.map pstrip
    if truthyS t2 then t2
    else
      match soup.metaTitle with
      | some c => some (pstrip c)
      | none => none

/-- The acceptance test for anchors (src/scraper.py lines 220-222):
the joined URL, lowercased, ends with `.pdf`/`.ppt`/`.pptx` or contains
`pdf` or `ppt` anywhere. -/
def anchorCond (full_url : PyStr) : Bool :=
  let lu := lowerStr full_url
  (endsWithL sDotPdf lu || endsWithL sDotPpt lu || endsWithL sDotPptx lu) ||
  (containsSub kwPdf lu || containsSub kwPpt lu)

/-- The resource record built for an accepted anchor
(src/scraper.py lines 224-243). -/
def mkAnchorResource (page_url : PyStr) (a : Anchor) : Resource :=
  let full_url := urljoin page_url a.href
  { url := full_url
    filename := generate_filename a.text full_url a.title
    link_text := a.text
    title := a.title
    original_filename := basenameOf (urlPath full_url)
    downloaded_path := none }

/-- The acceptance test for embeds (src/scraper.py lines 250-252):
exact suffix match only. -/
def embedCond (full_url : PyStr) : Bool :=
  let lu := lowerStr full_url
  endsWithL sDotPdf lu || endsWithL sDotPpt lu || endsWithL sDotPptx lu

/-- Python's `a or b` on optional strings (`embed.get("src") or
embed.get("data")`). -/
def firstTruthy (a b : Option PyStr) : Option PyStr :=
  match a with
  | some s => if s.isEmpty then b else some s
  | none => b

/-- The resource record built for an accepted embed
(src/scraper.py lines 254-271). -/
def mkEmbedResource (page_url : PyStr) (src : PyStr) (e : Embed) : Resource :=
  let full_url := urljoin page_url src
  let title_text := if e.title.isEmpty then e.alt else e.title
  { url := full_url
    filename := generate_filename title_text full_url sEmbeddedRes
    link_text := if title_text.isEmpty then sEmbeddedSpace else title_text
    title := title_text
    original_filename := basenameOf (urlPath full_url)
    downloaded_path := none }

/-- `ResourceScraper.find_resources` (src/scraper.py lines 210-273). -/
def find_resources (soup : Soup) (page_url : PyStr) : List Resource :=
  soup.anchors.filterMap (fun a =>
    if anchorCond (urljoin page_url a.href) then some (mkAnchorResource page_url a)
    else none) ++
  soup.embeds.filterMap (fun e =>
    match firstTruthy e.src e.data with
    | none => none
    | some s =>
      if s.isEmpty then none
      else if embedCond (urljoin page_url s) then some (mkEmbedResource page_url s e)
      else none)

/-! ### PathResolver -/

/-- Split a list at every occurrence of `sep` (Python `str.split`). -/
def splitOnChar (sep : Char) : PyStr → List PyStr
  | [] => [[]]
  | a :: t =>
    match splitOnChar sep t with
    | [] => [[a]]
    | h :: r => if a == sep then [] :: h :: r else (a :: h) :: r

/-- Python's `netloc.replace("www.", "")`: remove every occurrence,
scanning left to right. -/
def removeWWW : PyStr → PyStr
  | 'w' :: 'w' :: 'w' :: '.' :: rest => removeWWW rest
  | c :: rest => c :: removeWWW rest
  | [] => []

/-- Lookup in an association list (Python dict access). -/
def lookupP (key : PyStr) : List (PyStr × α) → Option α
  | [] => none
  | (k, v) :: t => if k == key then some v else lookupP key t

/-- `ResourceScraper.get_folder_path` (src/scraper.py lines 107-147):
resolves and caches the destination folder of a page. -/
def get_folder_path (download_folder : PyStr) (cache : List (PyStr × PyStr))
    (page_url : PyStr) (page_title : Option PyStr) : PyStr × List (PyStr × PyStr) :=
  match lookupP page_url cache with
  | some path => (path, cache)
  | none =>
    let path_parts := (splitOnChar '/' (urlPath page_url)).filter (fun p => !p.isEmpty)
    let folder_parts := path_parts.filterMap (fun part => clean_filename (some part) 100)
    let folder_parts :=
      if truthyS page_title then
        match clean_filename page_title 100 with
        | some tc =>
          match folder_parts.getLast? with
          | none => [tc]
          | some lastPart =>
            if tc == lastPart then folder_parts else folder_parts.dropLast ++ [tc]
        | none => folder_parts
      else folder_parts
    let folder_parts :=
      if folder_parts.isEmpty then
        [(clean_filename (some (removeWWW (urlNetloc page_url))) 100).getD sWebsite]
      else folder_parts
    let folder_path := folder_parts.foldl joinPath download_folder
    (folder_path, (page_url, folder_path) :: cache)

/-! ### DownloadManager and Orchestrator -/

/-- The only uncaught exception class in the modelled fragment: `OSError`
from `os.makedirs` / `Path.mkdir` (download_file catches only
`requests.RequestException`). -/
inductive PyErr where
  | osError
deriving DecidableEq

/-- The external collaborators: page fetching+parsing (`none` models a
`requests.RequestException` or unparsable page), file transfer (`none`
models a `requests.RequestException`), and whether creating a given
directory raises `OSError`. -/
structure World where
  pages : PyStr → Option Soup
  http : PyStr → Option (List Nat)
  mkdirFail : PyStr → Bool

/-- The mutable state of one run: the scraper's own fields
(`download_folder`, `downloaded_files`, `folder_structure`), the filesystem,
and two ghost traces: `log` records every URL for which an HTTP transfer
request was issued, `attempts` records every `download_file` invocation
`(url, filepath)`. -/
structure ScrState where
  download_folder : PyStr
  downloaded_files : List PyStr
  folder_structure : List (PyStr × PyStr)
  fs : FileSys
  log : List PyStr
  attempts : List (PyStr × PyStr)

/-- `ResourceScraper.download_file` (src/scraper.py lines 275-307).
Returns the Python return value (`Except.ok`) or an uncaught `OSError`
(`Except.error`), together with the post-state. -/
def download_file (w : World) (st0 : ScrState) (url filepath : PyStr) :
    Except PyErr Bool × ScrState :=
  let st := { st0 with attempts := (url, filepath) :: st0.attempts }
  if url ∈ st.downloaded_files then (Except.ok true, st)
  else
    let st := { st with log := url :: st.log }
    match w.http url with
    | none => (Except.ok false, st)
    | some bytes =>
      let fp := nextFreePath st.fs filepath
      if w.mkdirFail (dirnameOf fp) then (Except.error PyErr.osError, st)
      else
        (Except.ok true,
         { st with
            fs := (fp, bytes) :: st.fs
            downloaded_files := url :: st.downloaded_files })

/-- The per-resource loop of `scrape_page` (src/scraper.py lines 343-358):
on success the resource's `downloaded_path` is set to `full_filepath`
(the pre-collision path) and the resource is appended. -/
def downloadLoop (w : World) (folder_path : PyStr) :
    ScrState → List Resource → List Resource → Except PyErr (List Resource) × ScrState
  | st, [], acc => (Except.ok acc.reverse, st)
  | st, r :: rest, acc =>
    let fp := joinPath folder_path r.filename
    match download_file w st r.url fp with
    | (Except.ok true, st') =>
      downloadLoop w folder_path st' rest ({ r with downloaded_path := some fp } :: acc)
    | (Except.ok false, st') => downloadLoop w folder_path st' rest acc
    | (Except.error e, st') => (Except.error e, st')

/-- `ResourceScraper.scrape_page` (src/scraper.py lines 309-358). -/
def scrape_page (w : World) (st0 : ScrState) (page_url : PyStr) (preview_only : Bool) :
    Except PyErr (List Resource) × ScrState :=
  let st := { st0 with log := page_url :: st0.log }
  match w.pages page_url with
  | none => (Except.ok [], st)
  | some soup =>
    let page_title := get_page_title soup
    let gfp := get_folder_path st.download_folder st.folder_structure page_url page_title
    let folder_path := gfp.1
    let st := { st with folder_structure := gfp.2 }
    let resources := find_resources soup page_url
    if preview_only then (Except.ok resources, st)
    else if w.mkdirFail folder_path then (Except.error PyErr.osError, st)
    else downloadLoop w folder_path st resources []

/-- `ResourceScraper.scrape_multiple_pages` (src/scraper.py lines 360-373). -/
def scrape_multiple_pages (w : World) :
    ScrState → List PyStr → Bool → Except PyErr (List Resource) × ScrState
  | st, [], _ => (Except.ok [], st)
  | st, u :: rest, preview_only =>
    match scrape_page w st u preview_only with
    | (Except.ok downloaded, st') =>
      (match scrape_multiple_pages w st' rest preview_only with
       | (Except.ok more, st'') => (Except.ok (downloaded ++ more), st'')
       | (Except.error e, st'') => (Except.error e, st''))
    | (Except.error e, st') => (Except.error e, st')

/-! ### Concrete worlds, states and pages used to instantiate theorems -/

/-- A world whose transfers always succeed and whose filesystem operations
never fail. -/
def wSimple : World :=
  { pages := fun _ => none
    http := fun _ => some [1, 2]
    mkdirFail := fun _ => false }

/-- A world whose transfers always fail (`requests.RequestException`). -/
def wFailT : World :=
  { pages := fun _ => none
    http := fun _ => none
    mkdirFail := fun _ => false }

def pathA : PyStr := "dl/a.txt".data

def urlA : PyStr := "http://e.com/a.txt".data

/-- A state whose filesystem already holds a file at `pathA`. -/
def stA : ScrState :=
  { download_folder := "dl".data
    downloaded_files := []
    folder_structure := []
    fs := [(pathA, [7])]
    log := []
    attempts := [] }

/-- A state whose dedup set already contains `urlA`. -/
def stB : ScrState :=
  { download_folder := "dl".data
    downloaded_files := [urlA]
    folder_structure := []
    fs := [(pathA, [7])]
    log := []
    attempts := [] }

/-- A URL whose path ends in `.doc`: the spec's classifier returns `.doc`,
the code returns `.pdf`. -/
def urlDoc : PyStr := "http://x/f.doc".data

/-- An extensionless URL containing `ppt` (the spec's scenario 2 shape). -/
def urlTalk : PyStr := "http://a/slides/talk?fmt=ppt".data

/-- The last path segment of `anchorBad`'s URL: carries a control character
and a `.txt` extension. -/
def badName : PyStr := "da\x01ta.txt".data

/-- An anchor with empty link text and title whose URL contains `pdf` but
whose last path segment is `da\x01ta.txt`. -/
def anchorBad : Anchor :=
  { href := "http://x/pdf/da\x01ta.txt".data, text := [], title := [] }

def soupBad : Soup :=
  { anchors := [anchorBad], embeds := [], titleTag := none, h1 := none, metaTitle := none }

def pageBad : PyStr := "http://p.com/a".data

/-- Link text carrying the DEL character `\x7f`: not whitespace and outside
the sanitizer's replaced class `[<>:"/\\|?*\x00-\x1f]`, so it survives
`clean_filename` untouched. -/
def delText : PyStr := "Rep\x7fort".data

/-- The filename generated from `delText` for a `.pdf` URL: the DEL control
character remains in the sanitized-text branch's output. -/
def delName : PyStr := "Rep\x7fort.pdf".data

/-- An absolute URL whose path ends in `.pdf`. -/
def urlPdfA : PyStr := "http://e.com/a.pdf".data

/-- An anchor with an empty `href`. -/
def anchorEmpty : Anchor := { href := [], text := "x".data, title := [] }

def soupEmptyHref : Soup :=
  { anchors := [anchorEmpty], embeds := [], titleTag := none, h1 := none, metaTitle := none }

/-- A page URL that itself contains the substring `pdf`. -/
def pagePdf : PyStr := "http://x/pdf/page".data

/-- A parsed page with no elements at all. -/
def soupEmpty : Soup :=
  { anchors := [], embeds := [], titleTag := none, h1 := none, metaTitle := none }

/-- A world where every directory creation raises `OSError`. -/
def wMkdirFail : World :=
  { pages := fun _ => some soupEmpty
    http := fun _ => some [1]
    mkdirFail := fun _ => true }

/-- A state with an empty filesystem. -/
def stEmpty : ScrState :=
  { download_folder := "dl".data
    downloaded_files := []
    folder_structure := []
    fs := []
    log := []
    attempts := [] }

/-- An anchor with link text `Report` pointing at an absolute `.pdf` URL. -/
def anchorRep : Anchor :=
  { href := "http://e.com/a.pdf".data, text := "Report".data, title := [] }

def soupRep : Soup :=
  { anchors := [anchorRep], embeds := [], titleTag := none, h1 := none, metaTitle := none }

def pageRep : PyStr := "http://e.com/docs".data

/-- The pre-collision destination path of `anchorRep`'s download. -/
def pathRep : PyStr := "dl/docs/Report.pdf".data

/-- The suffixed path the bytes actually land at when `pathRep` exists. -/
def pathRep1 : PyStr := "dl/docs/Report_1.pdf".data

/-- A world serving `soupRep` at `pageRep`, with transfers returning the
bytes `[9, 9]` and no filesystem failures. -/
def wRep : World :=
  { pages := fun u => if u == pageRep then some soupRep else none
    http := fun _ => some [9, 9]
    mkdirFail := fun _ => false }

/-- A state whose filesystem already holds a file (contents `[7]`) at the
exact destination path `dl/docs/Report.pdf`. -/
def stRep : ScrState :=
  { download_folder := "dl".data
    downloaded_files := []
    folder_structure := []
    fs := [(pathRep, [7])]
    log := []
    attempts := [] }

/-- Decode little-endian decimal digit characters back to a number; a left
inverse of `natToDigitsRev`, used to prove that `natRepr` is injective. -/
def decodeRev : PyStr → Nat
  | [] => 0
  | c :: t => (c.toNat - 48) + 10 * decodeRev t

/-! ### Lemmas about the sanitizer's building blocks -/

theorem dropTrailing_cons_eq (p : Char → Bool) (a : Char) (t : PyStr) :
    dropTrailing p (a :: t) =
      match dropTrailing p t with
      | [] => if p a then [] else [a]
      | b :: r => a :: b :: r := rfl

theorem dropTrailing_cons_not {p : Char → Bool} {a : Char} {t : PyStr} (h : p a = false) :
    dropTrailing p (a :: t) = a :: dropTrailing p t := by
  rw [dropTrailing_cons_eq]
  cases hdt : dropTrailing p t with
  | nil => simp [h]
  | cons b r => rfl

theorem dropTrailing_subset {p : Char → Bool} :
    ∀ {l : PyStr} {c : Char}, c ∈ dropTrailing p l → c ∈ l := by
  intro l
  induction l with
  | nil => intro c h; simp [dropTrailing] at h
  | cons a t ih =>
    intro c h
    simp only [dropTrailing] at h
    cases hdt : dropTrailing p t with
    | nil =>
      rw [hdt] at h
      by_cases hp : p a <;> simp [hp] at h
      simp [h]
    | cons b r =>
      rw [hdt] at h
      rcases List.mem_cons.mp h with h | h
      · simp [h]
      · exact List.mem_cons_of_mem a (ih (hdt ▸ h))

theorem dropTrailing_length {p : Char → Bool} :
    ∀ l : PyStr, (dropTrailing p l).length ≤ l.length := by
  intro l
  induction l with
  | nil => simp [dropTrailing]
  | cons a t ih =>
    simp only [dropTrailing]
    cases hdt : dropTrailing p t with
    | nil => by_cases hp : p a <;> simp [hp]
    | cons b r =>
      rw [hdt] at ih
      simpa using Nat.succ_le_succ ih

theorem dropTrailing_head {p : Char → Bool} :
    ∀ {l : PyStr} {a : Char}, (dropTrailing p l).head? = some a → l.head? = some a := by
  intro l a h
  cases l with
  | nil => simp [dropTrailing] at h
  | cons x xs =>
    simp only [dropTrailing] at h
    cases hdt : dropTrailing p xs with
    | nil =>
      rw [hdt] at h
      by_cases hp : p x <;> simp [hp] at h
      simp [h]
    | cons b r =>
      rw [hdt] at h
      simp at h
      simp [h]

theorem dropTrailing_last {p : Char → Bool} :
    ∀ {l : PyStr} {a : Char}, (dropTrailing p l).getLast? = some a → p a = false := by
  intro l
  induction l with
  | nil => intro a h; simp [dropTrailing] at h
  | cons x xs ih =>
    intro a h
    simp only [dropTrailing] at h
    cases hdt : dropTrailing p xs with
    | nil =>
      rw [hdt] at h
      by_cases hp : p x <;> simp [hp] at h
      subst h
      simpa using hp
    | cons b r =>
      rw [hdt] at h
      rw [List.getLast?_cons_cons] at h
      exact ih (hdt ▸ h)

theorem dropTrailing_id_of_last {p : Char → Bool} :
    ∀ {l : PyStr}, (∀ a, l.getLast? = some a → p a = false) → dropTrailing p l = l := by
  intro l
  induction l with
  | nil => intro _; rfl
  | cons x xs ih =>
    intro h
    cases xs with
    | nil =>
      have hx : p x = false := h x rfl
      simp [dropTrailing, hx]
    | cons y ys =>
      have hxs : dropTrailing p (y :: ys) = y :: ys := by
        apply ih
        intro a ha
        exact h a (by rw [List.getLast?_cons_cons]; exact ha)
      rw [dropTrailing_cons_eq, hxs]

theorem mem_of_getLast? : ∀ {l : PyStr} {a : Char}, l.getLast? = some a → a ∈ l := by
  intro l
  induction l with
  | nil => intro a h; simp at h
  | cons x xs ih =>
    intro a h
    cases xs with
    | nil => simp at h; simp [h]
    | cons y ys =>
      rw [List.getLast?_cons_cons] at h
      exact List.mem_cons_of_mem x (ih h)

theorem head?_dropWhile_not {p : Char → Bool} :
    ∀ {l : PyStr} {a : Char}, (l.dropWhile p).head? = some a → p a = false := by
  intro l
  induction l with
  | nil => intro a h; simp at h
  | cons b t ih =>
    intro a h
    rw [List.dropWhile_cons] at h
    by_cases hb : p b
    · simp [hb] at h; exact ih h
    · simp [hb] at h; rw [← h]; simpa using hb

theorem dropWhile_id_of_head {p : Char → Bool} {l : PyStr}
    (h : ∀ b, l.head? = some b → p b = false) : l.dropWhile p = l := by
  cases l with
  | nil => rfl
  | cons a t => rw [List.dropWhile_cons, h a rfl]; simp

theorem noDD_tail : ∀ {a : Char} {l : PyStr}, noDD (a :: l) = true → noDD l = true := by
  intro a l h
  cases l with
  | nil => rfl
  | cons b t => simp [noDD] at h; exact h.2

theorem noDD_cons {a : Char} {l : PyStr} (h : noDD l = true)
    (hp : ∀ b, l.head? = some b → (collChar a && collChar b) = false) :
    noDD (a :: l) = true := by
  cases l with
  | nil => rfl
  | cons b t =>
    simp only [noDD, Bool.and_eq_true, Bool.not_eq_true']
    exact ⟨hp b rfl, h⟩

theorem noDD_dropWhile {p : Char → Bool} :
    ∀ {l : PyStr}, noDD l = true → noDD (l.dropWhile p) = true := by
  intro l
  induction l with
  | nil => intro _; rfl
  | cons a t ih =>
    intro h
    rw [List.dropWhile_cons]
    by_cases hp : p a
    · simp [hp]; exact ih (noDD_tail h)
    · simpa [hp] using h

theorem noDD_take : ∀ {l : PyStr} (n : Nat), noDD l = true → noDD (l.take n) = true := by
  intro l
  induction l with
  | nil => intro n _; simp [noDD]
  | cons a t ih =>
    intro n h
    cases n with
    | zero => rfl
    | succ m =>
      rw [List.take_succ_cons]
      apply noDD_cons (ih m (noDD_tail h))
      intro b hb
      cases t with
      | nil => simp at hb
      | cons c t' =>
        cases m with
        | zero => simp at hb
        | succ m' =>
          rw [List.take_succ_cons] at hb
          simp at hb
          subst hb
          simp only [noDD, Bool.and_eq_true, Bool.not_eq_true'] at h
          exact h.1

theorem noDD_dropTrailing {p : Char → Bool} :
    ∀ {l : PyStr}, noDD l = true → noDD (dropTrailing p l) = true := by
  intro l
  induction l with
  | nil => intro _; rfl
  | cons a t ih =>
    intro h
    simp only [dropTrailing]
    cases hdt : dropTrailing p t with
    | nil => by_cases hp : p a <;> simp [hp, noDD]
    | cons b r =>
      have hbd : noDD (b :: r) = true := hdt ▸ ih (noDD_tail h)
      apply noDD_cons hbd
      intro c hc
      simp at hc
      subst hc
      have hhead : t.head? = some b := dropTrailing_head (by rw [hdt]; rfl)
      cases t with
      | nil => simp at hhead
      | cons x xs =>
        simp at hhead
        subst hhead
        simp only [noDD, Bool.and_eq_true, Bool.not_eq_true'] at h
        exact h.1

/-! ### Lemmas about tag stripping, replacement and run collapsing -/

theorem stripTagsAux_none_id : ∀ {l : PyStr}, '<' ∉ l → stripTagsAux none l = l := by
  intro l
  induction l with
  | nil => intro _; rfl
  | cons c t ih =>
    intro h
    have hc : (c == '<') = false := by
      simp only [beq_eq_false_iff_ne, ne_eq]
      intro hc; exact h (hc ▸ List.mem_cons_self c t)
    simp only [stripTagsAux, hc, Bool.false_eq_true, if_false]
    rw [ih (fun hm => h (List.mem_cons_of_mem c hm))]

theorem mem_map_replInv {l : PyStr} {c : Char} (h : c ∈ l.map replInv) :
    invChar c = false := by
  rcases List.mem_map.mp h with ⟨b, _, hb⟩
  subst hb
  unfold replInv
  by_cases hib : invChar b
  · simp [hib]; decide
  · simp [hib]

theorem map_replInv_id {l : PyStr} (h : ∀ c ∈ l, invChar c = false) :
    l.map replInv = l := by
  induction l with
  | nil => rfl
  | cons a t ih =>
    have ha : invChar a = false := h a (List.mem_cons_self a t)
    simp only [List.map_cons, replInv, ha, Bool.false_eq_true, if_false]
    rw [ih (fun c hc => h c (List.mem_cons_of_mem a hc))]

theorem collapseAux_mem : ∀ {l : PyStr} {flag : Bool} {c : Char},
    c ∈ collapseAux flag l → c = '_' ∨ (c ∈ l ∧ collChar c = false) := by
  intro l
  induction l with
  | nil => intro flag c h; simp [collapseAux] at h
  | cons a t ih =>
    intro flag c h
    simp only [collapseAux] at h
    by_cases ha : collChar a
    · rw [if_pos ha] at h
      cases flag with
      | true =>
        rcases ih h with h' | h'
        · exact Or.inl h'
        · exact Or.inr ⟨List.mem_cons_of_mem a h'.1, h'.2⟩
      | false =>
        rcases List.mem_cons.mp h with h' | h'
        · exact Or.inl h'
        · rcases ih h' with h'' | h''
          · exact Or.inl h''
          · exact Or.inr ⟨List.mem_cons_of_mem a h''.1, h''.2⟩
    · rw [if_neg ha] at h
      rcases List.mem_cons.mp h with h' | h'
      · subst h'
        exact Or.inr ⟨List.mem_cons_self c t, by simpa using ha⟩
      · rcases ih h' with h'' | h''
        · exact Or.inl h''
        · exact Or.inr ⟨List.mem_cons_of_mem a h''.1, h''.2⟩

theorem collapseAux_not_space {l : PyStr} {flag : Bool} {c : Char}
    (h : c ∈ collapseAux flag l) : isSpaceChar c = false := by
  rcases collapseAux_mem h with h' | h'
  · subst h'; decide
  · have := h'.2
    unfold collChar at this
    exact (Bool.or_eq_false_iff.mp this).1

theorem collapseAux_not_inv {l : PyStr} {flag : Bool} {c : Char}
    (h : c ∈ collapseAux flag l) (hl : ∀ b ∈ l, invChar b = false) :
    invChar c = false := by
  rcases collapseAux_mem h with h' | h'
  · subst h'; decide
  · exact hl c h'.1

theorem collapseAux_true_head : ∀ {l : PyStr} {a : Char},
    (collapseAux true l).head? = some a → collChar a = false := by
  intro l
  induction l with
  | nil => intro a h; simp [collapseAux] at h
  | cons c t ih =>
    intro a h
    simp only [collapseAux] at h
    by_cases hc : collChar c
    · rw [if_pos hc] at h; exact ih h
    · rw [if_neg hc] at h
      simp at h
      subst h
      simpa using hc

theorem noDD_collapseAux : ∀ (l : PyStr) (flag : Bool), noDD (collapseAux flag l) = true := by
  intro l
  induction l with
  | nil => intro flag; rfl
  | cons c t ih =>
    intro flag
    simp only [collapseAux]
    by_cases hc : collChar c
    · rw [if_pos hc]
      cases flag with
      | true => exact ih true
      | false =>
        apply noDD_cons (ih true)
        intro b hb
        have := collapseAux_true_head hb
        simp [this]
    · rw [if_neg hc]
      apply noDD_cons (ih false)
      intro b _
      have hc' : collChar c = false := by simpa using hc
      simp [hc']

theorem collapseAux_id : ∀ (l : PyStr),
    (∀ c ∈ l, isSpaceChar c = false) → noDD l = true →
    collapseAux false l = l ∧
      ((∀ b, l.head? = some b → collChar b = false) → collapseAux true l = l) := by
  intro l
  induction l with
  | nil => intro _ _; exact ⟨rfl, fun _ => rfl⟩
  | cons c t ih =>
    intro hsp hdd
    have hspt : ∀ x ∈ t, isSpaceChar x = false :=
      fun x hx => hsp x (List.mem_cons_of_mem c hx)
    have hddt : noDD t = true := noDD_tail hdd
    obtain ⟨ih1, ih2⟩ := ih hspt hddt
    by_cases hc : collChar c
    · have hcu : c = '_' := by
        have hspc : isSpaceChar c = false := hsp c (List.mem_cons_self c t)
        unfold collChar at hc
        rw [hspc] at hc
        simpa using hc
      have hht : ∀ b, t.head? = some b → collChar b = false := by
        intro b hb
        cases t with
        | nil => simp at hb
        | cons x xs =>
          simp at hb
          subst hb
          simp only [noDD, Bool.and_eq_true, Bool.not_eq_true'] at hdd
          have := hdd.1
          rw [(by simpa using hc : collChar c = true)] at this
          simpa using this
      constructor
      · simp only [collapseAux, if_pos hc]
        rw [ih2 hht, hcu]
        simp
      · intro hhead
        have := hhead c rfl
        rw [this] at hc
        simp at hc
    · constructor
      · simp only [collapseAux, if_neg hc]
        rw [ih1]
      · intro _
        simp only [collapseAux, if_neg hc]
        rw [ih1]

/-! ### Invariants of the sanitizer's output and idempotence -/

theorem mem_of_head? : ∀ {l : PyStr} {a : Char}, l.head? = some a → a ∈ l := by
  intro l a h
  cases l with
  | nil => simp at h
  | cons x xs => simp at h; simp [h]

theorem head?_take {l : PyStr} {n : Nat} {a : Char} (h : (l.take n).head? = some a) :
    l.head? = some a := by
  cases n with
  | zero => simp at h
  | succ m =>
    cases l with
    | nil => simp at h
    | cons x xs => simpa using h

theorem pstrip_id {l : PyStr} (h : ∀ c ∈ l, isSpaceChar c = false) : pstrip l = l := by
  unfold pstrip
  rw [dropWhile_id_of_head (fun b hb => h b (mem_of_head? hb))]
  exact dropTrailing_id_of_last (fun a ha => h a (mem_of_getLast? ha))

theorem clean_filename_core_props (t0 : PyStr) (mx : Nat) :
    (∀ c ∈ clean_filename_core t0 mx, invChar c = false) ∧
    (∀ c ∈ clean_filename_core t0 mx, isSpaceChar c = false) ∧
    noDD (clean_filename_core t0 mx) = true ∧
    (∀ a, (clean_filename_core t0 mx).head? = some a → udChar a = false) ∧
    (∀ a, (clean_filename_core t0 mx).getLast? = some a → udChar a = false) ∧
    (clean_filename_core t0 mx).length ≤ mx := by
  unfold clean_filename_core
  set t4 := collapseRuns ((pstrip (stripTags t0)).map replInv) with ht4
  have inv4 : ∀ c ∈ t4, invChar c = false := by
    intro c hc
    exact collapseAux_not_inv hc (fun b hb => mem_map_replInv hb)
  have sp4 : ∀ c ∈ t4, isSpaceChar c = false := fun c hc => collapseAux_not_space hc
  have nd4 : noDD t4 = true := noDD_collapseAux _ false
  set t5 := stripUD t4 with ht5
  have sub5 : ∀ c ∈ t5, c ∈ t4 := by
    intro c hc
    exact (List.dropWhile_sublist udChar).subset (dropTrailing_subset hc)
  have nd5 : noDD t5 = true := noDD_dropTrailing (noDD_dropWhile nd4)
  have hd5 : ∀ a, t5.head? = some a → udChar a = false :=
    fun a ha => head?_dropWhile_not (dropTrailing_head ha)
  have lt5 : ∀ a, t5.getLast? = some a → udChar a = false := fun a ha => dropTrailing_last ha
  by_cases hlen : mx < t5.length
  · rw [if_pos hlen]
    refine ⟨?_, ?_, ?_, ?_, ?_, ?_⟩
    · intro c hc
      exact inv4 c (sub5 c (List.take_subset mx t5 (dropTrailing_subset hc)))
    · intro c hc
      exact sp4 c (sub5 c (List.take_subset mx t5 (dropTrailing_subset hc)))
    · exact noDD_dropTrailing (noDD_take mx nd5)
    · intro a ha
      exact hd5 a (head?_take (dropTrailing_head ha))
    · intro a ha
      exact dropTrailing_last ha
    · calc (dropTrailing udChar (t5.take mx)).length ≤ (t5.take mx).length :=
            dropTrailing_length _
        _ ≤ mx := by rw [List.length_take]; omega
  · rw [if_neg hlen]
    exact ⟨fun c hc => inv4 c (sub5 c hc), fun c hc => sp4 c (sub5 c hc), nd5, hd5, lt5,
      by omega⟩

theorem clean_filename_some_eq {t0 s : PyStr} {mx : Nat}
    (h : clean_filename (some t0) mx = some s) :
    s = clean_filename_core t0 mx ∧ s ≠ [] := by
  simp only [clean_filename] at h
  by_cases h1 : (t0.isEmpty || (pstrip t0).isEmpty) = true
  · rw [if_pos h1] at h; exact absurd h (by simp)
  · rw [if_neg h1] at h
    by_cases h2 : (clean_filename_core t0 mx).isEmpty = true
    · rw [if_pos h2] at h; exact absurd h (by simp)
    · rw [if_neg h2] at h
      have hs : clean_filename_core t0 mx = s := by
        injection h
      refine ⟨hs.symm, ?_⟩
      rw [← hs]
      intro hcon
      rw [hcon] at h2
      simp at h2

theorem clean_filename_fixed {s : PyStr} {mx : Nat} (hne : s ≠ [])
    (hinv : ∀ c ∈ s, invChar c = false) (hsp : ∀ c ∈ s, isSpaceChar c = false)
    (hnd : noDD s = true) (hhd : ∀ a, s.head? = some a → udChar a = false)
    (hlast : ∀ a, s.getLast? = some a → udChar a = false) (hlen : s.length ≤ mx) :
    clean_filename (some s) mx = some s := by
  have hps : pstrip s = s := pstrip_id hsp
  have hlt : '<' ∉ s := by
    intro hm
    exact absurd (hinv '<' hm) (by decide)
  have htags : stripTags s = s := stripTagsAux_none_id hlt
  have hmap : s.map replInv = s := map_replInv_id hinv
  have hcoll : collapseRuns s = s := (collapseAux_id s hsp hnd).1
  have hstud : stripUD s = s := by
    unfold stripUD
    rw [dropWhile_id_of_head (fun b hb => hhd b hb)]
    exact dropTrailing_id_of_last hlast
  have hcore : clean_filename_core s mx = s := by
    unfold clean_filename_core collapseRuns at *
    rw [htags, hps, hmap, hcoll, hstud]
    rw [if_neg (by omega)]
  simp only [clean_filename]
  rw [if_neg (by
    simp only [Bool.or_eq_true, not_or]
    constructor
    · simpa using hne
    · rw [hps]; simpa using hne)]
  rw [hcore]
  rw [if_neg (by simpa using hne)]

/-- C7: the name sanitizer is idempotent at the default maximum length
(100): for every input, `clean_filename (clean_filename x) = clean_filename x`,
the `None` case mapping to `None` again. -/
theorem c7_clean_filename_idempotent (x : Option PyStr) :
    clean_filename (clean_filename x 100) 100 = clean_filename x 100 := by
  cases x with
  | none => rfl
  | some t0 =>
    cases h : clean_filename (some t0) 100 with
    | none => rfl
    | some s =>
      obtain ⟨hs, hne⟩ := clean_filename_some_eq h
      obtain ⟨hinv, hsp, hnd, hhd, hlast, hlen⟩ := clean_filename_core_props t0 100
      rw [← hs] at hinv hsp hnd hhd hlast hlen
      exact clean_filename_fixed hne hinv hsp hnd hhd hlast hlen

/-! ### Freeness of the collision loop's result -/

theorem digit_char_toNat : ∀ d : Nat, d < 10 → (Char.ofNat (48 + d)).toNat = 48 + d := by
  decide

theorem decodeRev_natToDigitsRev : ∀ (fuel n : Nat), n ≤ fuel →
    decodeRev (natToDigitsRev fuel n) = n := by
  intro fuel
  induction fuel with
  | zero =>
    intro n h
    have : n = 0 := by omega
    subst this
    rfl
  | succ f ih =>
    intro n h
    by_cases hn : n = 0
    · subst hn; rfl
    · have hne : (n == 0) = false := by simpa using hn
      simp only [natToDigitsRev, hne, Bool.false_eq_true, if_false, decodeRev]
      have hdiv : n / 10 ≤ f := by
        have := Nat.div_lt_self (Nat.pos_of_ne_zero hn) (by norm_num : 1 < 10)
        omega
      rw [ih (n / 10) hdiv, digit_char_toNat (n % 10) (Nat.mod_lt n (by norm_num))]
      omega

theorem natRepr_ne_nil (n : Nat) : natRepr n ≠ [] := by
  unfold natRepr
  by_cases hn : n = 0
  · simp [hn]
  · have hne : (n == 0) = false := by simpa using hn
    rw [if_neg (by simpa using hn)]
    cases n with
    | zero => exact absurd rfl hn
    | succ m =>
      simp only [natToDigitsRev, hne, Bool.false_eq_true, if_false]
      simp

theorem natRepr_inj : Function.Injective natRepr := by
  intro a b h
  unfold natRepr at h
  by_cases ha : a = 0 <;> by_cases hb : b = 0
  · omega
  · rw [if_pos (by simpa using ha), if_neg (by simpa using hb)] at h
    have : decodeRev (natToDigitsRev b b) = b := decodeRev_natToDigitsRev b b le_rfl
    rw [← List.reverse_reverse (natToDigitsRev b b), ← h] at this
    simp [decodeRev] at this
    omega
  · rw [if_neg (by simpa using ha), if_pos (by simpa using hb)] at h
    have : decodeRev (natToDigitsRev a a) = a := decodeRev_natToDigitsRev a a le_rfl
    rw [← List.reverse_reverse (natToDigitsRev a a), h] at this
    simp [decodeRev] at this
    omega
  · rw [if_neg (by simpa using ha), if_neg (by simpa using hb)] at h
    have hab : natToDigitsRev a a = natToDigitsRev b b := by
      have := congrArg List.reverse h
      simpa using this
    have h1 := decodeRev_natToDigitsRev a a le_rfl
    have h2 := decodeRev_natToDigitsRev b b le_rfl
    rw [hab] at h1
    omega

theorem splitextAux_concat (p pre rest : PyStr) (hsplit : pre ++ rest = p.reverse) :
    (splitextAux p pre rest).1 ++ (splitextAux p pre rest).2 = p := by
  have hp : p = rest.reverse ++ pre.reverse := by
    have := congrArg List.reverse hsplit
    simp [List.reverse_append] at this
    exact this.symm
  cases rest with
  | nil => simp [splitextAux]
  | cons d r2 =>
    by_cases hd : d = '.'
    · subst hd
      by_cases hany : ((r2.takeWhile (fun c => !(c == '/'))).any (fun c => !(c == '.'))) = true
      · simp only [splitextAux, hany, if_true]
        rw [hp]
        simp
      · simp only [splitextAux, hany, Bool.false_eq_true, if_false]
        simp
    · have : splitextAux p pre (d :: r2) = (p, []) := by
        unfold splitextAux
        split
        · next heq =>
          injection heq with h1 _
          exact absurd h1 hd
        · rfl
      rw [this]
      simp

theorem splitext_concat (p : PyStr) : (splitext p).1 ++ (splitext p).2 = p := by
  unfold splitext
  exact splitextAux_concat p _ _
    (List.takeWhile_append_dropWhile (fun c => !(c == '.') && !(c == '/')) p.reverse)

theorem cand_zero_length (orig : PyStr) (j : Nat) :
    (cand orig (j + 1)).length = orig.length + 1 + (natRepr (j + 1)).length := by
  conv_rhs => rw [← splitext_concat orig]
  simp only [cand, List.length_append, List.length_cons]
  omega

theorem cand_inj (orig : PyStr) : Function.Injective (cand orig) := by
  intro i j h
  cases i with
  | zero =>
    cases j with
    | zero => rfl
    | succ j' =>
      have h1 := cand_zero_length orig j'
      have h2 : (natRepr (j' + 1)).length ≠ 0 := by
        simpa using natRepr_ne_nil (j' + 1)
      have := congrArg List.length h
      simp only [cand] at this
      rw [← h] at h1
      simp only [cand] at h1
      omega
  | succ i' =>
    cases j with
    | zero =>
      have h1 := cand_zero_length orig i'
      have h2 : (natRepr (i' + 1)).length ≠ 0 := by
        simpa using natRepr_ne_nil (i' + 1)
      rw [h] at h1
      simp only [cand] at h1
      omega
    | succ j' =>
      simp only [cand] at h
      have h3 := List.append_cancel_left h
      injection h3 with _ h4
      have h5 := List.append_cancel_right h4
      have := natRepr_inj h5
      omega

theorem findFree_free (paths : List PyStr) (orig : PyStr) :
    ∀ (fuel k : Nat), (∃ j, k ≤ j ∧ j ≤ k + fuel ∧ cand orig j ∉ paths) →
    findFree paths orig fuel k ∉ paths := by
  intro fuel
  induction fuel with
  | zero =>
    intro k ⟨j, hk, hj, hfree⟩
    have : j = k := by omega
    subst this
    exact hfree
  | succ f ih =>
    intro k ⟨j, hk, hj, hfree⟩
    simp only [findFree]
    by_cases hmem : cand orig k ∈ paths
    · rw [if_pos hmem]
      apply ih (k + 1)
      have hjk : j ≠ k := by
        intro hcon
        subst hcon
        exact hfree hmem
      exact ⟨j, by omega, by omega, hfree⟩
    · rw [if_neg hmem]
      exact hmem

theorem exists_free_cand (paths : List PyStr) (orig : PyStr) :
    ∃ j, j ≤ paths.length + 1 ∧ cand orig j ∉ paths := by
  by_contra hcon
  push_neg at hcon
  have hnd : ((List.range (paths.length + 2)).map (cand orig)).Nodup :=
    (List.nodup_range _).map (cand_inj orig)
  have hsub : ((List.range (paths.length + 2)).map (cand orig)).toFinset ⊆
      paths.toFinset := by
    intro x hx
    rw [List.mem_toFinset] at hx
    rw [List.mem_toFinset]
    rcases List.mem_map.mp hx with ⟨j, hj, rfl⟩
    exact hcon j (by have := List.mem_range.mp hj; omega)
  have h1 : ((List.range (paths.length + 2)).map (cand orig)).toFinset.card =
      paths.length + 2 := by
    rw [List.toFinset_card_of_nodup hnd, List.length_map, List.length_range]
  have h3 := Finset.card_le_card hsub
  have h4 : paths.toFinset.card ≤ paths.length := List.toFinset_card_le paths
  omega

theorem nextFreePath_free (fs : FileSys) (orig : PyStr) :
    nextFreePath fs orig ∉ fs.map Prod.fst := by
  unfold nextFreePath
  apply findFree_free
  obtain ⟨j, hj, hfree⟩ := exists_free_cand (fs.map Prod.fst) orig
  refine ⟨j, Nat.zero_le j, ?_, hfree⟩
  rw [List.length_map] at hj
  omega

theorem lookupP_eq_none_of_not_mem {α : Type} : ∀ {fs : List (PyStr × α)} {p : PyStr},
    p ∉ fs.map Prod.fst → lookupP p fs = none := by
  intro fs
  induction fs with
  | nil => intro p _; rfl
  | cons kv t ih =>
    intro p h
    obtain ⟨k, v⟩ := kv
    have hk : (k == p) = false := by
      simp only [beq_eq_false_iff_ne, ne_eq]
      intro hcon
      apply h
      rw [List.map_cons, hcon]
      exact List.mem_cons_self p _
    simp only [lookupP, hk, Bool.false_eq_true, if_false]
    apply ih
    intro hm
    apply h
    rw [List.map_cons]
    exact List.mem_cons_of_mem _ hm

theorem lookupP_cons_preserve {α : Type} {fs : List (PyStr × α)} {p : PyStr} {v : α}
    (hfree : lookupP p fs = none) {q : PyStr} {c : α} (hq : lookupP q fs = some c) :
    lookupP q ((p, v) :: fs) = some c := by
  simp only [lookupP]
  by_cases hpq : p = q
  · subst hpq
    rw [hfree] at hq
    exact absurd hq (by simp)
  · rw [if_neg (by simpa using hpq)]
    exact hq

/-- C4: `download_file` never overwrites an existing file.  Its collision
loop probes `name.ext, name_1.ext, name_2.ext, ...` until a free path is
found, and only a free path is ever written: every file present before the
call has identical contents after it, and the filesystem either is unchanged
or gains exactly one binding at a previously non-existent path. -/
theorem c4_download_file_no_overwrite (w : World) (st : ScrState) (url filepath : PyStr) :
    (∀ q c, lookupP q st.fs = some c →
      lookupP q (download_file w st url filepath).2.fs = some c) ∧
    ((download_file w st url filepath).2.fs = st.fs ∨
      ∃ p bytes, (download_file w st url filepath).2.fs = (p, bytes) :: st.fs ∧
        lookupP p st.fs = none) := by
  have hfree : lookupP (nextFreePath st.fs filepath) st.fs = none :=
    lookupP_eq_none_of_not_mem (nextFreePath_free st.fs filepath)
  have hkey : (download_file w st url filepath).2.fs = st.fs ∨
      ∃ bytes, (download_file w st url filepath).2.fs =
        (nextFreePath st.fs filepath, bytes) :: st.fs := by
    by_cases hmem : url ∈ st.downloaded_files
    · left; simp [download_file, hmem]
    · cases hh : w.http url with
      | none => left; simp [download_file, hmem, hh]
      | some bytes =>
        by_cases hmk : w.mkdirFail (dirnameOf (nextFreePath st.fs filepath)) = true
        · left; simp [download_file, hmem, hh, hmk]
        · right
          exact ⟨bytes, by simp [download_file, hmem, hh, hmk]⟩
  constructor
  · intro q c hq
    rcases hkey with h | ⟨bytes, h⟩
    · rw [h]; exact hq
    · rw [h]; exact lookupP_cons_preserve hfree hq
  · rcases hkey with h | ⟨bytes, h⟩
    · exact Or.inl h
    · exact Or.inr ⟨nextFreePath st.fs filepath, bytes, h, hfree⟩

/-- Witness for C4 at a concrete state: a download whose destination
collides with the pre-existing file `dl/a.txt` leaves that file's contents
intact. -/
theorem c4_witness :
    lookupP pathA (download_file wSimple stA urlA pathA).2.fs = some [7] :=
  (c4_download_file_no_overwrite wSimple stA urlA pathA).1 pathA [7] (by decide)

/-- C5: if the URL is already in the dedup set, `download_file` returns
success immediately: no transfer request is logged, no file is written, and
the dedup set (and folder cache) is unchanged.  On a transport-level
failure, failure is reported and the URL is not added to the dedup set. -/
theorem c5_download_file_dedup (w : World) (st : ScrState) (url filepath : PyStr) :
    (url ∈ st.downloaded_files →
      (download_file w st url filepath).1 = Except.ok true ∧
      (download_file w st url filepath).2.log = st.log ∧
      (download_file w st url filepath).2.fs = st.fs ∧
      (download_file w st url filepath).2.downloaded_files = st.downloaded_files ∧
      (download_file w st url filepath).2.folder_structure = st.folder_structure) ∧
    (url ∉ st.downloaded_files → w.http url = none →
      (download_file w st url filepath).1 = Except.ok false ∧
      (download_file w st url filepath).2.downloaded_files = st.downloaded_files ∧
      (download_file w st url filepath).2.fs = st.fs) := by
  constructor
  · intro hmem
    refine ⟨?_, ?_, ?_, ?_, ?_⟩ <;> simp [download_file, hmem]
  · intro hmem hh
    refine ⟨?_, ?_, ?_⟩ <;> simp [download_file, hmem, hh]

/-- Witness for C5: a second download of `urlA` short-circuits (no request
logged, state untouched), and a failing transfer of `urlA` from a fresh
state reports failure without entering the dedup set. -/
theorem c5_witness :
    ((download_file wSimple stB urlA pathA).1 = Except.ok true ∧
      (download_file wSimple stB urlA pathA).2.log = stB.log ∧
      (download_file wSimple stB urlA pathA).2.fs = stB.fs ∧
      (download_file wSimple stB urlA pathA).2.downloaded_files = stB.downloaded_files ∧
      (download_file wSimple stB urlA pathA).2.folder_structure = stB.folder_structure) ∧
    ((download_file wFailT stA urlA pathA).1 = Except.ok false ∧
      (download_file wFailT stA urlA pathA).2.downloaded_files = stA.downloaded_files ∧
      (download_file wFailT stA urlA pathA).2.fs = stA.fs) :=
  ⟨(c5_download_file_dedup wSimple stB urlA pathA).1 (by decide),
   (c5_download_file_dedup wFailT stA urlA pathA).2 (by decide) rfl⟩

/-! ### The type classifier and filename shapes -/

theorem gfe_range (url : PyStr) :
    get_file_extension url = sDotPdf ∨ get_file_extension url = sDotPpt ∨
      get_file_extension url = sDotPptx := by
  simp only [get_file_extension]
  by_cases h1 : endsWithL sDotPdf (lowerStr (urlPath url)) = true <;>
  by_cases h2 : endsWithL sDotPpt (lowerStr (urlPath url)) = true <;>
  by_cases h3 : endsWithL sDotPptx (lowerStr (urlPath url)) = true <;>
  by_cases h4 : containsSub kwPdf (lowerStr url) = true <;>
  by_cases h5 : containsSub kwPpt (lowerStr url) = true <;>
  simp [h1, h2, h3, h4, h5]

theorem startsWith_self_append : ∀ (p r : PyStr), startsWithL p (p ++ r) = true := by
  intro p
  induction p with
  | nil => intro r; rfl
  | cons a t ih => intro r; simp [startsWithL, ih]

theorem endsWith_append (e x : PyStr) : endsWithL e (x ++ e) = true := by
  unfold endsWithL
  rw [List.reverse_append]
  exact startsWith_self_append _ _

theorem clean_filename_no_inv {t s : PyStr} {mx : Nat}
    (h : clean_filename (some t) mx = some s) : ∀ c ∈ s, invChar c = false := by
  obtain ⟨hs, _⟩ := clean_filename_some_eq h
  obtain ⟨hinv, _⟩ := clean_filename_core_props t mx
  intro c hc
  rw [hs] at hc
  exact hinv c hc

theorem no_slash_of_no_inv {f : PyStr} (h : ∀ c ∈ f, invChar c = false) : '/' ∉ f :=
  fun hm => absurd (h '/' hm) (by decide)

theorem basename_no_slash (p : PyStr) : '/' ∉ basenameOf p := by
  unfold basenameOf
  intro hm
  rw [List.mem_reverse] at hm
  have := List.mem_takeWhile_imp hm
  simp at this

theorem gf_ext_shape (url s : PyStr) (hs : ∀ c ∈ s, invChar c = false) :
    s ++ get_file_extension url ≠ [] ∧
    (∀ c ∈ s ++ get_file_extension url, invChar c = false) ∧
    (endsWithL sDotPdf (s ++ get_file_extension url) = true ∨
     endsWithL sDotPpt (s ++ get_file_extension url) = true ∨
     endsWithL sDotPptx (s ++ get_file_extension url) = true) := by
  rcases gfe_range url with h | h | h <;> rw [h]
  · refine ⟨by simp [sDotPdf], ?_, Or.inl (endsWith_append _ _)⟩
    intro c hm
    rcases List.mem_append.mp hm with hm | hm
    · exact hs c hm
    · exact (by decide : ∀ c ∈ sDotPdf, invChar c = false) c hm
  · refine ⟨by simp [sDotPpt], ?_, Or.inr (Or.inl (endsWith_append _ _))⟩
    intro c hm
    rcases List.mem_append.mp hm with hm | hm
    · exact hs c hm
    · exact (by decide : ∀ c ∈ sDotPpt, invChar c = false) c hm
  · refine ⟨by simp [sDotPptx], ?_, Or.inr (Or.inr (endsWith_append _ _))⟩
    intro c hm
    rcases List.mem_append.mp hm with hm | hm
    · exact hs c hm
    · exact (by decide : ∀ c ∈ sDotPptx, invChar c = false) c hm

theorem gfFallback_shape (url fallback : PyStr) :
    gfFallback url fallback (get_file_extension url) ≠ [] ∧
    '/' ∉ gfFallback url fallback (get_file_extension url) ∧
    (((∀ c ∈ gfFallback url fallback (get_file_extension url), invChar c = false) ∧
      (endsWithL sDotPdf (gfFallback url fallback (get_file_extension url)) = true ∨
       endsWithL sDotPpt (gfFallback url fallback (get_file_extension url)) = true ∨
       endsWithL sDotPptx (gfFallback url fallback (get_file_extension url)) = true)) ∨
     gfFallback url fallback (get_file_extension url) = basenameOf (urlPath url)) := by
  unfold gfFallback
  by_cases hf : fallback.isEmpty = true
  · rw [if_neg (by simp [hf])]
    by_cases hg : (!(basenameOf (urlPath url)).isEmpty &&
        (basenameOf (urlPath url)).contains '.') = true
    · rw [if_pos hg]
      refine ⟨?_, basename_no_slash _, Or.inr rfl⟩
      have := (Bool.and_eq_true _ _).mp hg
      intro hcon
      rw [hcon] at this
      simp at this
    · rw [if_neg hg]
      obtain ⟨h1, h2, h3⟩ := gf_ext_shape url sDocument (by decide)
      exact ⟨h1, no_slash_of_no_inv h2, Or.inl ⟨h2, h3⟩⟩
  · rw [if_pos (by simp [Bool.not_eq_true] at hf ⊢; exact hf)]
    cases hcf : clean_filename (some fallback) 100 with
    | some cf =>
      obtain ⟨h1, h2, h3⟩ := gf_ext_shape url cf (clean_filename_no_inv hcf)
      exact ⟨h1, no_slash_of_no_inv h2, Or.inl ⟨h2, h3⟩⟩
    | none =>
      obtain ⟨h1, h2, h3⟩ := gf_ext_shape url sDocument (by decide)
      exact ⟨h1, no_slash_of_no_inv h2, Or.inl ⟨h2, h3⟩⟩

/-- C3 (amended): every filename produced by `generate_filename` (for any
link text, URL and fallback text, hence for every candidate built by
`find_resources`) is non-empty and contains no `/`.  Filenames built from
sanitized text contain no character of the sanitizer's replaced class —
none of `< > : " / \ | ? *` and no control character in `\x00`-`\x1f`
(`invChar c = false` for every character; DEL `\x7f` is outside that class
and may remain) — and end in one of the code's recognized extensions
(`.pdf`, `.ppt`, `.pptx`); the remaining branch returns the URL's last path
segment verbatim, which may keep a foreign extension and raw characters. -/
theorem c3_generate_filename_shape (link_text url fallback : PyStr) :
    generate_filename link_text url fallback ≠ [] ∧
    '/' ∉ generate_filename link_text url fallback ∧
    (((∀ c ∈ generate_filename link_text url fallback, invChar c = false) ∧
      (endsWithL sDotPdf (generate_filename link_text url fallback) = true ∨
       endsWithL sDotPpt (generate_filename link_text url fallback) = true ∨
       endsWithL sDotPptx (generate_filename link_text url fallback) = true)) ∨
     generate_filename link_text url fallback = basenameOf (urlPath url)) := by
  cases hct : clean_filename (some link_text) 100 with
  | some ct =>
    simp only [generate_filename, hct]
    by_cases hlen : 2 < ct.length
    · rw [if_pos hlen]
      obtain ⟨h1, h2, h3⟩ := gf_ext_shape url ct (clean_filename_no_inv hct)
      exact ⟨h1, no_slash_of_no_inv h2, Or.inl ⟨h2, h3⟩⟩
    · rw [if_neg hlen]
      exact gfFallback_shape url fallback
  | none =>
    simp only [generate_filename, hct]
    exact gfFallback_shape url fallback

/-- Counterexample for C3, refuting both guarantees of the original claim.
Extension: `find_resources` accepts `anchorBad` (its URL contains `pdf`) and
the generated filename is the URL's last path segment verbatim,
`da\x01ta.txt` — a control character inside and none of the seven
recognized extensions at the end.  Control characters: even the
sanitized-text branch lets the DEL control character `\x7f` through, since
the replaced class stops at `\x1f`: link text `Rep\x7fort` on a `.pdf` URL
yields the filename `Rep\x7fort.pdf` containing `\x7f`. -/
theorem c3_counterexample :
    (find_resources soupBad pageBad).map Resource.filename = [badName] ∧
    badName.any (fun c => decide (c.toNat < 32)) = true ∧
    endsWithL sDotPdf badName = false ∧ endsWithL sDotPpt badName = false ∧
    endsWithL sDotPptx badName = false ∧ endsWithL sDotDoc badName = false ∧
    endsWithL sDotDocx badName = false ∧ endsWithL sDotXls badName = false ∧
    endsWithL sDotMp4 badName = false ∧
    generate_filename delText urlPdfA [] = delName ∧
    '\x7f' ∈ delName ∧ ('\x7f').toNat = 127 := by
  refine ⟨by decide, by decide, by decide, by decide, by decide, by decide, by decide,
    by decide, by decide, by decide, by decide, by decide⟩

/-- C2 (amended): `get_file_extension` is total into the three extensions
`.pdf`, `.ppt`, `.pptx`: first an exact suffix match of the lowercased path
against `.pdf`, `.ppt`, `.pptx` (in that order), else the keyword `pdf`
anywhere in the lowercased URL gives `.pdf`, else the keyword `ppt` gives
`.pptx`, else the default `.pdf`. -/
theorem c2_get_file_extension_range (url : PyStr) :
    (get_file_extension url = sDotPdf ∨ get_file_extension url = sDotPpt ∨
      get_file_extension url = sDotPptx) ∧
    (endsWithL sDotPdf (lowerStr (urlPath url)) = false →
     endsWithL sDotPpt (lowerStr (urlPath url)) = false →
     endsWithL sDotPptx (lowerStr (urlPath url)) = false →
     containsSub kwPdf (lowerStr url) = false →
     containsSub kwPpt (lowerStr url) = true →
     get_file_extension url = sDotPptx) := by
  refine ⟨gfe_range url, ?_⟩
  intro h1 h2 h3 h4 h5
  unfold get_file_extension
  simp [h1, h2, h3, h4, h5]

/-- Counterexample for C2: on a URL whose path ends in `.doc`, the claimed
seven-extension algorithm (classify_spec, following the spec's words)
returns `.doc`, but the code returns `.pdf`. -/
theorem c2_counterexample :
    get_file_extension urlDoc = sDotPdf ∧ classify_spec urlDoc = sDotDoc ∧
      sDotPdf ≠ sDotDoc :=
  ⟨by decide, by decide, by decide⟩

/-- Witness for C2 at a concrete URL: an extensionless URL containing `ppt`
but not `pdf` classifies as `.pptx`. -/
theorem c2_witness : get_file_extension urlTalk = sDotPptx :=
  (c2_get_file_extension_range urlTalk).2 (by decide) (by decide) (by decide)
    (by decide) (by decide)

/-! ### Resource extraction -/

theorem urljoin_nil (base : PyStr) : urljoin base [] = base := by
  unfold urljoin
  by_cases hb : base.isEmpty = true
  · rw [if_pos hb]
    exact (List.isEmpty_iff.mp hb).symm
  · rw [if_neg hb]
    simp

/-- C10: `find_resources` accepts every anchor whose joined URL contains
`pdf` or `ppt` (case-insensitively) anywhere, and an anchor with an empty
href resolves to the page URL itself, so such a page yields a candidate
whose resource URL is the page URL. -/
theorem c10_anchor_keyword (soup : Soup) (page : PyStr) (a : Anchor)
    (ha : a ∈ soup.anchors)
    (hk : containsSub kwPdf (lowerStr (urljoin page a.href)) = true ∨
          containsSub kwPpt (lowerStr (urljoin page a.href)) = true) :
    mkAnchorResource page a ∈ find_resources soup page ∧
      (a.href = [] → (mkAnchorResource page a).url = page) := by
  constructor
  · unfold find_resources
    apply List.mem_append_left
    apply List.mem_filterMap.mpr
    refine ⟨a, ha, ?_⟩
    have hcond : anchorCond (urljoin page a.href) = true := by
      unfold anchorCond
      rcases hk with h | h <;> simp [h]
    rw [if_pos hcond]
  · intro h0
    simp only [mkAnchorResource, h0, urljoin_nil]

/-- Witness for C10: a page whose URL contains `pdf`, carrying one anchor
with an empty href, yields exactly that candidate with the page URL as its
resource URL. -/
theorem c10_witness :
    mkAnchorResource pagePdf anchorEmpty ∈ find_resources soupEmptyHref pagePdf ∧
      (mkAnchorResource pagePdf anchorEmpty).url = pagePdf := by
  have h := c10_anchor_keyword soupEmptyHref pagePdf anchorEmpty (by decide)
    (Or.inl (by decide))
  exact ⟨h.1, h.2 rfl⟩

/-! ### Orchestrator lemmas -/

theorem download_file_attempts (w : World) (st : ScrState) (url fp : PyStr) :
    (download_file w st url fp).2.attempts = (url, fp) :: st.attempts := by
  by_cases hmem : url ∈ st.downloaded_files
  · simp [download_file, hmem]
  · cases hh : w.http url with
    | none => simp [download_file, hmem, hh]
    | some bytes =>
      by_cases hmk : w.mkdirFail (dirnameOf (nextFreePath st.fs fp)) = true
      · simp [download_file, hmem, hh, hmk]
      · simp [download_file, hmem, hh, hmk]

theorem download_file_ok (w : World) (st : ScrState) (url fp : PyStr)
    (hmk : ∀ p, w.mkdirFail p = false) :
    ∃ b, (download_file w st url fp).1 = Except.ok b := by
  by_cases hmem : url ∈ st.downloaded_files
  · exact ⟨true, by simp [download_file, hmem]⟩
  · cases hh : w.http url with
    | none => exact ⟨false, by simp [download_file, hmem, hh]⟩
    | some bytes => exact ⟨true, by simp [download_file, hmem, hh, hmk]⟩

theorem pair_eta {α β : Type} (p : α × β) {a : α} (h : p.1 = a) : p = (a, p.2) := by
  rw [← h]

theorem downloadLoop_ok (w : World) (folder : PyStr) (hmk : ∀ p, w.mkdirFail p = false) :
    ∀ (rs : List Resource) (st : ScrState) (acc : List Resource),
    ∃ l, (downloadLoop w folder st rs acc).1 = Except.ok l := by
  intro rs
  induction rs with
  | nil => intro st acc; exact ⟨acc.reverse, rfl⟩
  | cons r rest ih =>
    intro st acc
    obtain ⟨b, hd⟩ := download_file_ok w st r.url (joinPath folder r.filename) hmk
    have hpair := pair_eta (download_file w st r.url (joinPath folder r.filename)) hd
    generalize hst1 : (download_file w st r.url (joinPath folder r.filename)).2 = st1
      at hpair
    cases b with
    | true =>
      obtain ⟨l, hl⟩ :=
        ih st1 ({ r with downloaded_path := some (joinPath folder r.filename) } :: acc)
      exact ⟨l, by rw [show downloadLoop w folder st (r :: rest) acc =
        downloadLoop w folder st1 rest
          ({ r with downloaded_path := some (joinPath folder r.filename) } :: acc) by
          simp only [downloadLoop, hpair]]; exact hl⟩
    | false =>
      obtain ⟨l, hl⟩ := ih st1 acc
      exact ⟨l, by rw [show downloadLoop w folder st (r :: rest) acc =
        downloadLoop w folder st1 rest acc by simp only [downloadLoop, hpair]]; exact hl⟩

theorem downloadLoop_attempts (w : World) (folder : PyStr)
    (hmk : ∀ p, w.mkdirFail p = false) :
    ∀ (rs : List Resource) (st : ScrState) (acc : List Resource),
    (downloadLoop w folder st rs acc).2.attempts =
      (rs.map (fun r => (r.url, joinPath folder r.filename))).reverse ++ st.attempts := by
  intro rs
  induction rs with
  | nil => intro st acc; simp [downloadLoop]
  | cons r rest ih =>
    intro st acc
    obtain ⟨b, hd⟩ := download_file_ok w st r.url (joinPath folder r.filename) hmk
    have hpair := pair_eta (download_file w st r.url (joinPath folder r.filename)) hd
    have hatt : (download_file w st r.url (joinPath folder r.filename)).2.attempts =
        (r.url, joinPath folder r.filename) :: st.attempts :=
      download_file_attempts w st r.url (joinPath folder r.filename)
    generalize hst1 : (download_file w st r.url (joinPath folder r.filename)).2 = st1
      at hpair hatt
    cases b with
    | true =>
      rw [show downloadLoop w folder st (r :: rest) acc =
        downloadLoop w folder st1 rest
          ({ r with downloaded_path := some (joinPath folder r.filename) } :: acc) by
          simp only [downloadLoop, hpair]]
      rw [ih _ _, hatt]
      simp
    | false =>
      rw [show downloadLoop w folder st (r :: rest) acc =
        downloadLoop w folder st1 rest acc by simp only [downloadLoop, hpair]]
      rw [ih _ _, hatt]
      simp

theorem get_folder_path_cache (df : PyStr) (cache : List (PyStr × PyStr)) (page : PyStr)
    (pt : Option PyStr) :
    (lookupP page (get_folder_path df cache page pt).2).isSome = true ∧
    (∀ u, u ≠ page → lookupP u (get_folder_path df cache page pt).2 = lookupP u cache) := by
  cases hc : lookupP page cache with
  | some path =>
    simp only [get_folder_path, hc]
    simp [hc]
  | none =>
    simp only [get_folder_path, hc]
    constructor
    · simp [lookupP]
    · intro u hu
      simp only [lookupP]
      rw [if_neg (by simpa using fun hcon => hu (by rw [hcon]))]

theorem scrape_page_preview_result (w : World) (st : ScrState) (page : PyStr)
    (soup : Soup) (hf : w.pages page = some soup) :
    (scrape_page w st page true).1 = Except.ok (find_resources soup page) := by
  simp [scrape_page, hf]

theorem scrape_page_preview_state (w : World) (st : ScrState) (page : PyStr)
    (soup : Soup) (hf : w.pages page = some soup) :
    (scrape_page w st page true).2 =
      { st with
        log := page :: st.log
        folder_structure := (get_folder_path st.download_folder st.folder_structure page
          (get_page_title soup)).2 } := by
  simp [scrape_page, hf]

theorem scrape_page_nonpreview_eq (w : World) (st : ScrState) (page : PyStr)
    (soup : Soup) (hf : w.pages page = some soup)
    (hmk : w.mkdirFail (get_folder_path st.download_folder st.folder_structure page
      (get_page_title soup)).1 = false) :
    scrape_page w st page false =
      downloadLoop w
        (get_folder_path st.download_folder st.folder_structure page
          (get_page_title soup)).1
        { st with
          log := page :: st.log
          folder_structure := (get_folder_path st.download_folder st.folder_structure page
            (get_page_title soup)).2 }
        (find_resources soup page) [] := by
  simp [scrape_page, hf, hmk]

theorem scrape_page_ok (w : World) (st : ScrState) (page : PyStr) (b : Bool)
    (hmk : ∀ p, w.mkdirFail p = false) :
    ∃ l, (scrape_page w st page b).1 = Except.ok l := by
  cases hp : w.pages page with
  | none => exact ⟨[], by simp [scrape_page, hp]⟩
  | some soup =>
    cases b with
    | true => exact ⟨find_resources soup page, scrape_page_preview_result w st page soup hp⟩
    | false =>
      obtain ⟨l, hl⟩ := downloadLoop_ok w
        (get_folder_path st.download_folder st.folder_structure page
          (get_page_title soup)).1 hmk (find_resources soup page)
        { st with
          log := page :: st.log
          folder_structure := (get_folder_path st.download_folder st.folder_structure
            page (get_page_title soup)).2 } []
      refine ⟨l, ?_⟩
      rw [scrape_page_nonpreview_eq w st page soup hp (hmk _)]
      exact hl

/-- C6 (amended): page-fetch failures and transport-level download failures
are caught and non-fatal: whenever no filesystem operation fails,
`scrape_multiple_pages` returns `Except.ok` with the resources downloaded so
far, for every page list and state. -/
theorem c6_transport_errors_nonfatal (w : World) (hmk : ∀ p, w.mkdirFail p = false) :
    ∀ (urls : List PyStr) (st : ScrState) (b : Bool),
    ∃ l, (scrape_multiple_pages w st urls b).1 = Except.ok l := by
  intro urls
  induction urls with
  | nil => intro st b; exact ⟨[], rfl⟩
  | cons u rest ih =>
    intro st b
    obtain ⟨l1, h1⟩ := scrape_page_ok w st u b hmk
    have hpair := pair_eta (scrape_page w st u b) h1
    generalize hst1 : (scrape_page w st u b).2 = st1 at hpair
    obtain ⟨l2, h2⟩ := ih st1 b
    have hpair2 := pair_eta (scrape_multiple_pages w st1 rest b) h2
    generalize hst2 : (scrape_multiple_pages w st1 rest b).2 = st2 at hpair2
    exact ⟨l1 ++ l2, by
      rw [show scrape_multiple_pages w st (u :: rest) b = (Except.ok (l1 ++ l2), st2) by
        simp only [scrape_multiple_pages, hpair, hpair2]]⟩

/-- Witness for C6 (amended) at a concrete input: with no filesystem
failures, a run over one page returns `ok` even though the page fetch
fails. -/
theorem c6_witness :
    ∃ l, (scrape_multiple_pages wSimple stA [pageBad] false).1 = Except.ok l :=
  c6_transport_errors_nonfatal wSimple (fun _ => rfl) [pageBad] stA false

/-- Counterexample for C6: a failing directory creation (`OSError` from
`Path.mkdir`/`os.makedirs`) is not caught: the run aborts with the error
instead of returning the list of resources downloaded so far. -/
theorem c6_counterexample :
    (scrape_multiple_pages wMkdirFail stEmpty [pageBad] false).1 =
      Except.error PyErr.osError := by rfl

/-- C9: preview mode is not free of all state mutation: after a preview
scrape of a fetchable page, the folder cache holds an entry for that page
URL, while the dedup set and the filesystem (the only other run state) are
unchanged, and no other page's cache entry is touched. -/
theorem c9_preview_folder_cache (w : World) (st : ScrState) (page : PyStr) (soup : Soup)
    (hf : w.pages page = some soup) :
    (lookupP page (scrape_page w st page true).2.folder_structure).isSome = true ∧
    (scrape_page w st page true).2.downloaded_files = st.downloaded_files ∧
    (scrape_page w st page true).2.fs = st.fs ∧
    (∀ u, u ≠ page → lookupP u (scrape_page w st page true).2.folder_structure =
      lookupP u st.folder_structure) := by
  obtain ⟨h1, h2⟩ := get_folder_path_cache st.download_folder st.folder_structure page
    (get_page_title soup)
  rw [scrape_page_preview_state w st page soup hf]
  exact ⟨h1, rfl, rfl, h2⟩

/-- Witness for C9 at a concrete page: after previewing `pageRep`, the
folder cache maps it to a path while dedup set and filesystem are
untouched. -/
theorem c9_witness :
    (lookupP pageRep (scrape_page wRep stRep pageRep true).2.folder_structure).isSome
        = true ∧
    (scrape_page wRep stRep pageRep true).2.downloaded_files = stRep.downloaded_files ∧
    (scrape_page wRep stRep pageRep true).2.fs = stRep.fs := by
  have h := c9_preview_folder_cache wRep stRep pageRep soupRep (by decide)
  exact ⟨h.1, h.2.1, h.2.2.1⟩

/-- C8: preview mode reports exactly `find_resources` of the fetched page —
the same list, in the same order, with the same generated filenames, that
non-preview mode hands to `download_file` — and performs no filesystem
write and no dedup-set mutation. -/
theorem c8_preview_frame (w : World) (st : ScrState) (page : PyStr) (soup : Soup)
    (hf : w.pages page = some soup) (hmk : ∀ p, w.mkdirFail p = false) :
    (scrape_page w st page true).1 = Except.ok (find_resources soup page) ∧
    (scrape_page w st page true).2.fs = st.fs ∧
    (scrape_page w st page true).2.downloaded_files = st.downloaded_files ∧
    (scrape_page w st page false).2.attempts =
      ((find_resources soup page).map (fun r =>
        (r.url, joinPath (get_folder_path st.download_folder st.folder_structure page
          (get_page_title soup)).1 r.filename))).reverse ++ st.attempts := by
  refine ⟨scrape_page_preview_result w st page soup hf, ?_, ?_, ?_⟩
  · rw [scrape_page_preview_state w st page soup hf]
  · rw [scrape_page_preview_state w st page soup hf]
  · rw [scrape_page_nonpreview_eq w st page soup hf (hmk _)]
    rw [downloadLoop_attempts w _ hmk (find_resources soup page) _ []]

/-- Witness for C8 at a concrete page: the preview of `pageRep` reports the
one anchor resource, leaves disk and dedup state alone, and the non-preview
run attempts exactly that resource. -/
theorem c8_witness :
    (scrape_page wRep stRep pageRep true).1 =
        Except.ok (find_resources soupRep pageRep) ∧
    (scrape_page wRep stRep pageRep true).2.fs = stRep.fs ∧
    (scrape_page wRep stRep pageRep true).2.downloaded_files = stRep.downloaded_files ∧
    (scrape_page wRep stRep pageRep false).2.attempts =
      ((find_resources soupRep pageRep).map (fun r =>
        (r.url, joinPath (get_folder_path stRep.download_folder stRep.folder_structure
          pageRep (get_page_title soupRep)).1 r.filename))).reverse ++ stRep.attempts :=
  c8_preview_frame wRep stRep pageRep soupRep (by decide) (fun _ => rfl)

/-- C1 evaluation at the failing input: with `dl/docs/Report.pdf` already on
disk, `download_file` writes the bytes `[9, 9]` to `dl/docs/Report_1.pdf`,
but the resource returned by `scrape_page` records
`downloaded_path = dl/docs/Report.pdf` — a path still holding the old
contents `[7]`. -/
theorem c1_recorded_path_differs :
    ((scrape_page wRep stRep pageRep false).1.map
        (fun l => l.map Resource.downloaded_path)) = Except.ok [some pathRep] ∧
    lookupP pathRep (scrape_page wRep stRep pageRep false).2.fs = some [7] ∧
    lookupP pathRep1 (scrape_page wRep stRep pageRep false).2.fs = some [9, 9] ∧
    pathRep ≠ pathRep1 :=
  ⟨by rfl, by decide, by decide, by decide⟩
